import Mathlib

/-!
Verification development for the HuttCityCouncilNow pipeline (main.py).

The file shallowly embeds the pure logic of main.py: the thread segmenter
(generate_tweet and its helpers), the committee-label extraction
(find_committee_name_from_link), link discovery (scrape_links), and the
orchestrating main loop with its batched catalog insert. External services
(the requests/httpx transport, the Gemini summarizer and the tweepy client)
appear as oracle parameters; raised-and-uncaught Python exceptions are
modelled with Except, and caught ones with Option results, exactly where
the source catches them.
-/

set_option maxRecDepth 10000
set_option maxHeartbeats 2000000

namespace HCC

/-- Budget constant local to generate_tweet in main.py: tweet_length_limit = 270. -/
def tweet_length_limit : Nat := 270

/-- Whitespace test of Python str.split (the ASCII whitespace characters). -/
def isPySpace (c : Char) : Bool :=
  c == ' ' || c == '\t' || c == '\n' || c == '\r' || c == '\x0b' || c == '\x0c'

/-- Worker for pyWords: splits a character list on whitespace runs, never
producing an empty word, as Python str.split() with no argument does. -/
def wordsGo : List Char → List Char → List (List Char)
  | [], acc => if acc.isEmpty then [] else [acc]
  | c :: rest, acc =>
    if isPySpace c then
      if acc.isEmpty then wordsGo rest [] else acc :: wordsGo rest []
    else
      wordsGo rest (acc ++ [c])

/-- Python line.split(): the whitespace-delimited words of a string. -/
def pyWords (s : String) : List String := (wordsGo s.data []).map String.mk

/-- Worker for pySplitlines: splits on newline characters; the segment after
the last newline is kept only when nonempty, matching Python str.splitlines. -/
def linesGo : List Char → List Char → List (List Char)
  | [], acc => if acc.isEmpty then [] else [acc]
  | c :: rest, acc =>
    if c == '\n' then acc :: linesGo rest [] else linesGo rest (acc ++ [c])

/-- Python summary.splitlines(), modelled for newline-separated text (the
line separator the summarizer output uses). -/
def pySplitlines (s : String) : List String := (linesGo s.data []).map String.mk

/-- Greedy word packer of the over-budget branch of generate_tweet: length
accumulates len(word) + 1 per word; a word is appended to the first piece
while the running length is under the limit and to the second piece once the
running length has reached it. -/
def packWords (limit : Nat) : List String → Nat → String → String → String × String
  | [], _, n1, n2 => (n1, n2)
  | w :: ws, len, n1, n2 =>
    let len2 := len + (w.length + 1)
    let n3 := if len2 < limit then n1 ++ w ++ " " else n1
    let n4 := if limit ≤ len2 then n2 ++ w ++ " " else n2
    packWords limit ws len2 n3 n4

/-- One iteration of the loop body of generate_tweet over the state
(tweets, tweet): the over-budget branch flushes the accumulator, packs the
words of the line into two pieces and appends all three; the under-budget
branch flushes when a length check reaches the limit and otherwise appends
the line and a trailing space to the accumulator. -/
def tweetStep : List String × String → String → List String × String
  | (tweets, tweet), line =>
    if tweet_length_limit ≤ line.length then
      let p := packWords tweet_length_limit (pyWords line) 0 "" ""
      (tweets ++ [tweet, p.1, p.2], "")
    else if tweet_length_limit ≤ tweet.length then
      (tweets ++ [tweet], line)
    else if tweet_length_limit ≤ tweet.length + line.length then
      (tweets ++ [tweet], line)
    else
      (tweets, tweet ++ line ++ " ")

/-- generate_tweet from main.py: folds the loop body over the lines and
appends the final accumulator when it is nonempty. -/
def generate_tweet (lines : List String) : List String :=
  let r := lines.foldl tweetStep ([], "")
  if r.2 ≠ "" then r.1 ++ [r.2] else r.1

/-- Segmentation of a summary string: generate_tweet applied to
summary.splitlines(), exactly as post_to_twitter invokes it. -/
def segment (summary : String) : List String := generate_tweet (pySplitlines summary)

/-- Positional suffix appended to a chunk at posting time: " (i+1/total)". -/
def posSuffix (i total : Nat) : String :=
  " (" ++ toString (i + 1) ++ "/" ++ toString total ++ ")"

/-- Rendered forms of the chunk list, as the posting loop of post_to_twitter
builds them before each create_tweet call. -/
def renderChunks (chunks : List String) : List String :=
  chunks.enum.map (fun p => p.2 ++ posSuffix p.1 chunks.length)

/-- Node inside the committee table cell: a text node or a br element. -/
inductive CellNode
  | text (s : String)
  | br
deriving DecidableEq

/-- Anchor element of the fetched council page: its href, and the node list
of the td cell with class bpsGridCommittee found among the preceding
siblings of the parent of the anchor (none when that cell is absent). -/
structure Anchor where
  href : String
  committeeCell : Option (List CellNode)
deriving DecidableEq

/-- Text content of a cell, as BeautifulSoup .text gives it: the
concatenation of its text nodes. -/
def cellText (ns : List CellNode) : String :=
  ns.foldl (fun acc n => match n with | CellNode.text s => acc ++ s | CellNode.br => acc) ""

/-- Drops leading whitespace characters. -/
def dropLeadingWs : List Char → List Char
  | [] => []
  | c :: rest => if isPySpace c then dropLeadingWs rest else c :: rest

/-- Python str.strip(): removes leading and trailing whitespace. -/
def pyStrip (s : String) : String :=
  String.mk ((dropLeadingWs ((dropLeadingWs s.data).reverse)).reverse)

/-- Sibling node immediately before the first br of the cell, when the cell
has a br and that br has a preceding sibling. -/
def prevOfFirstBr : List CellNode → Option CellNode
  | [] => none
  | CellNode.br :: _ => none
  | n :: CellNode.br :: _ => some n
  | _ :: rest => prevOfFirstBr rest

/-- find_committee_name_from_link from main.py. The source evaluates
committee_td.find(br) before testing committee_td, so an absent cell raises
AttributeError (returned here as Except.error) and the branch assigning
"Unknown Committee" is unreachable: a present bs4 tag is always truthy, and
an absent one crashes first. When the first br has no preceding text node,
previous_sibling.strip() likewise raises. -/
def find_committee_name_from_link (link : Anchor) : Except String String :=
  match link.committeeCell with
  | none => Except.error "AttributeError: NoneType has no attribute find"
  | some ns =>
    let hasBr := ns.any (fun n => match n with | CellNode.br => true | _ => false)
    if hasBr then
      match prevOfFirstBr ns with
      | some (CellNode.text s) => Except.ok (pyStrip s)
      | some CellNode.br => Except.error "AttributeError: no strip on a tag"
      | none => Except.error "AttributeError: NoneType has no attribute strip"
    else
      Except.ok (pyStrip (cellText ns))

/-- Whether pat occurs at the head of s. -/
def leadMatch : List Char → List Char → Bool
  | [], _ => true
  | _ :: _, [] => false
  | p :: ps, c :: cs => p == c && leadMatch ps cs

/-- Whether pat occurs anywhere in s, on character lists. -/
def subAt : List Char → List Char → Bool
  | pat, [] => leadMatch pat []
  | pat, c :: rest => leadMatch pat (c :: rest) || subAt pat rest

/-- Python substring membership: pat in s. -/
def hasSub (s pat : String) : Bool := subAt pat.data s.data

/-- Python s.endswith(suf), on character lists from the end. -/
def pyEndsWith (s suf : String) : Bool := leadMatch suf.data.reverse s.data.reverse

/-- Python s.startswith(p). -/
def pyStartsWith (s p : String) : Bool := leadMatch p.data s.data

/-- Council index page URL constant from main.py. -/
def COUNCIL_URL : String := "https://huttcity.infocouncil.biz/"

/-- urllib.parse.urljoin specialized to COUNCIL_URL, whose path is the root:
an absolute href is returned unchanged, a host-relative href is resolved
against the host, and any other href against the base directory. -/
def urljoin (rel : String) : String :=
  if hasSub rel "://" then rel
  else if pyStartsWith rel "/" then "https://huttcity.infocouncil.biz" ++ rel
  else COUNCIL_URL ++ rel

/-- Candidate filter inside the loop of scrape_links: the href ends with
.PDF, contains AGN and does not contain SUP. -/
def agendaCond (h : String) : Bool :=
  pyEndsWith h ".PDF" && hasSub h "AGN" && !(hasSub h "SUP")

/-- Loop body of scrape_links over the anchors kept by find_all: a matching,
not-yet-catalogued candidate is labelled and yielded; an uncaught exception
from the label extraction propagates. The PDF download side effect is not
modelled. -/
def scrapeGo (inCatalog : String → Bool) : List Anchor → Except String (List (String × String))
  | [] => Except.ok []
  | a :: rest =>
    if agendaCond a.href then
      if inCatalog (urljoin a.href) then scrapeGo inCatalog rest
      else
        match find_committee_name_from_link a with
        | Except.error e => Except.error e
        | Except.ok name =>
          match scrapeGo inCatalog rest with
          | Except.error e => Except.error e
          | Except.ok tail => Except.ok ((name, urljoin a.href) :: tail)
    else scrapeGo inCatalog rest

/-- scrape_links from main.py over a page model: find_all with the PDF
regex and limit equal to one keeps at most the first anchor whose href ends
in .PDF; the kept anchors then run through the loop body. The page list
holds the anchor elements of the fetched HTML in document order. -/
def scrape_links (page : List Anchor) (inCatalog : String → Bool) :
    Except String (List (String × String)) :=
  scrapeGo inCatalog ((page.filter (fun a => pyEndsWith a.href ".PDF")).take 1)

/-- Catalog row of the council_meetings table; the timestamp column, set by
the database at insertion, is not modelled. The url column is the primary
key. -/
structure Record where
  committee_name : String
  url : String
  x_url : String
  summary : String
deriving DecidableEq

/-- post_to_twitter from main.py, with the external client abstracted as an
oracle from the rendered chunk list to the first-tweet URL (none when a
posting call raised and the handler returned None). A missing summary makes
summary.splitlines() raise inside the try block, caught to None; when the
chunk list is empty nothing is posted, first_tweet_id stays None and None is
returned regardless of the oracle. -/
def post_to_twitter (oracle : List String → Option String) (summary : Option String) :
    Option String :=
  match summary with
  | none => none
  | some s =>
    let chunks := generate_tweet (pySplitlines s)
    if chunks.isEmpty then none else oracle (renderChunks chunks)

/-- Body of the per-document loop of main: the row appended to
data_to_insert for one discovered (committee_name, link) pair, or none when
the document failed or the truthiness guard rejects a falsy field. -/
def docRecord (summarize : String → String → Option String)
    (oracle : List String → Option String) (d : String × String) : Option Record :=
  let summary := summarize d.1 d.2
  let x_link := post_to_twitter oracle summary
  match x_link, summary with
  | some x, some s =>
    if d.1 ≠ "" ∧ d.2 ≠ "" ∧ x ≠ "" ∧ s ≠ "" then some ⟨d.1, d.2, x, s⟩ else none
  | _, _ => none

/-- Whether the single executemany over the batch succeeds: no row may
repeat a committed url or the url of an earlier row of the same batch,
because url is the primary key. -/
def conflictFree (existing : List String) : List Record → Bool
  | [] => true
  | r :: rs => !(existing.contains r.url) && conflictFree (r.url :: existing) rs

/-- The loop and batched insert of main over the discovered links: every
document is processed in order, the successful rows are batched, and one
executemany inserts the batch at the end of the run. sqlite3.IntegrityError
is caught only at top level, so on any key conflict conn.commit() never runs
and the catalog is unchanged; when the batch is conflict-free the commit
appends every row. -/
def mainLoop (summarize : String → String → Option String)
    (oracle : List String → Option String)
    (found_links : List (String × String)) (cat : List Record) : List Record :=
  let data_to_insert := found_links.filterMap (docRecord summarize oracle)
  if conflictFree (cat.map Record.url) data_to_insert then cat ++ data_to_insert else cat

/-- main from main.py for one run: discover against the catalog, then
process and record; an uncaught exception during discovery kills the run
before any insert, leaving the catalog unchanged. -/
def main (summarize : String → String → Option String)
    (oracle : List String → Option String)
    (page : List Anchor) (cat : List Record) : List Record :=
  match scrape_links page (fun u => (cat.map Record.url).contains u) with
  | Except.error _ => cat
  | Except.ok links => mainLoop summarize oracle links cat

/-- Under-budget step as claim C6 words it: flush exactly when the
accumulator plus one separating space plus the line reaches the budget. This
definition follows the words of the claim, not the source, and exists to be
compared with tweetStep. -/
def tweetStepClaimC6 : List String × String → String → List String × String
  | (tweets, tweet), line =>
    if tweet_length_limit ≤ line.length then tweetStep (tweets, tweet) line
    else if tweet_length_limit ≤ tweet.length + 1 + line.length then
      (tweets ++ [tweet], line)
    else
      (tweets, tweet ++ line ++ " ")

/-- Segmenter built from the claimed C6 step, for comparison with
generate_tweet. -/
def generate_tweet_claimC6 (lines : List String) : List String :=
  let r := lines.foldl tweetStepClaimC6 ([], "")
  if r.2 ≠ "" then r.1 ++ [r.2] else r.1

/-- Sum of length plus one over a list of strings. -/
def sumLenS : List String → Nat
  | [] => 0
  | l :: rest => l.length + 1 + sumLenS rest

/-- Sum of length plus one over a list of character lists. -/
def sumLenC : List (List Char) → Nat
  | [] => 0
  | l :: rest => l.length + 1 + sumLenC rest

/-- Accumulator shape while no flush occurs: each line followed by one
trailing space, appended in order. -/
def accJoin (t : String) (lines : List String) : String :=
  lines.foldl (fun acc l => acc ++ l ++ " ") t

/-- Largest line length of a list of lines. -/
def maxLineLen : List String → Nat
  | [] => 0
  | l :: rest => max l.length (maxLineLen rest)

/-- Largest word length over all lines of a summary. -/
def maxWordLenS (s : String) : Nat :=
  (pySplitlines s).foldr
    (fun l m => max ((pyWords l).foldr (fun w k => max w.length k) 0) m) 0

/-- Concrete line of 99 characters, for the C6 counterexample. -/
def lineA : String := String.mk (List.replicate 99 'a')

/-- Concrete line of 169 characters, for the C6 counterexample. -/
def lineB : String := String.mk (List.replicate 169 'b')

/-- Concrete over-budget single-word summary, for C2. -/
def lineC2 : String := String.mk (List.replicate 270 'x')

/-- Concrete word of 89 characters, for the C5 counterexample. -/
def wordA : String := String.mk (List.replicate 89 'a')

/-- Concrete over-budget line of seven 89-character words, 629 characters in
total, for the C5 counterexample. -/
def lineC5 : String := String.intercalate " " (List.replicate 7 wordA)

/-- Concrete committee cell with a label, a br and trailing venue text. -/
def cellHCC : List CellNode :=
  [CellNode.text "Hutt City Council", CellNode.br, CellNode.text "Council Chambers 2pm"]

/-- Concrete agenda anchor with a committee cell. -/
def anchorAGN : Anchor := ⟨"Agendas/AGN_20260315.PDF", some cellHCC⟩

/-- Concrete agenda anchor whose committee cell is absent, for C4. -/
def anchorNoCell : Anchor := ⟨"Agendas/AGN_20260401.PDF", none⟩

/-- Catalog predicate with nothing catalogued. -/
def noCat : String → Bool := fun _ => false

/-- Summarizer oracle that always fails. -/
def sFail : String → String → Option String := fun _ _ => none

/-- Summarizer oracle failing exactly on url u1. -/
def sMix : String → String → Option String :=
  fun _ u => if u = "u1" then none else some "Line one"

/-- Summarizer oracle that always succeeds with a label-dependent summary. -/
def sAll : String → String → Option String := fun n _ => some ("Meeting notes " ++ n)

/-- Posting oracle that always succeeds with a fixed thread URL. -/
def oracleOK : List String → Option String := fun _ => some "https://x.com/hcc/status/9"

/-- Posting oracle that always fails. -/
def oracleNone : List String → Option String := fun _ => none

/-- Catalog already holding a row whose primary key is u1, for the C1
counterexample. -/
def catC1 : List Record := [⟨"Old", "u1", "https://x.com/hcc/status/1", "old summary"⟩]

theorem length_space : (" " : String).length = 1 := rfl

theorem sumLenS_map_mk (ls : List (List Char)) :
    sumLenS (ls.map String.mk) = sumLenC ls := by
  induction ls with
  | nil => rfl
  | cons l rest ih => simp [sumLenS, sumLenC, ih]

theorem linesGo_sum (cs : List Char) : ∀ acc,
    sumLenC (linesGo cs acc) ≤ cs.length + acc.length + 1 := by
  induction cs with
  | nil =>
    intro acc
    by_cases h : acc.isEmpty
    · simp [linesGo, h, sumLenC]
    · simp [linesGo, h, sumLenC]
  | cons c rest ih =>
    intro acc
    by_cases h : c == '\n'
    · have h1 := ih []
      simp only [List.length_nil] at h1
      simp only [linesGo, h, if_true, sumLenC, List.length_cons]
      omega
    · have h1 := ih (acc ++ [c])
      simp only [List.length_append, List.length_cons, List.length_nil] at h1
      simp [linesGo, h]
      omega

theorem wordsGo_sum (cs : List Char) : ∀ acc,
    sumLenC (wordsGo cs acc) ≤ cs.length + acc.length + 1 := by
  induction cs with
  | nil =>
    intro acc
    by_cases h : acc.isEmpty
    · simp [wordsGo, h, sumLenC]
    · simp [wordsGo, h, sumLenC]
  | cons c rest ih =>
    intro acc
    by_cases h : isPySpace c
    · by_cases ha : acc.isEmpty
      · have h1 := ih []
        simp only [List.length_nil] at h1
        simp only [wordsGo, h, if_true, ha, List.length_cons]
        omega
      · have h1 := ih []
        simp only [List.length_nil] at h1
        simp only [wordsGo, h, if_true, ha, if_false, sumLenC, List.length_cons]
        omega
    · have h1 := ih (acc ++ [c])
      simp only [List.length_append, List.length_cons, List.length_nil] at h1
      simp [wordsGo, h]
      omega

theorem pySplitlines_sum (s : String) : sumLenS (pySplitlines s) ≤ s.length + 1 := by
  have := linesGo_sum s.data []
  simp only [pySplitlines, sumLenS_map_mk]
  simpa using this

theorem pyWords_sum (l : String) : sumLenS (pyWords l) ≤ l.length + 1 := by
  have := wordsGo_sum l.data []
  simp only [pyWords, sumLenS_map_mk]
  simpa using this

theorem linesGo_ne_nil (cs : List Char) : ∀ acc, cs ≠ [] ∨ acc ≠ [] →
    linesGo cs acc ≠ [] := by
  induction cs with
  | nil =>
    intro acc h
    rcases h with h | h
    · exact absurd rfl h
    · simp [linesGo, h]
  | cons c rest ih =>
    intro acc _
    by_cases h : c == '\n'
    · simp [linesGo, h]
    · simp only [linesGo, h, if_false]
      exact ih (acc ++ [c]) (Or.inr (by simp))

theorem pySplitlines_ne_nil (s : String) (h : s ≠ "") : pySplitlines s ≠ [] := by
  have hd : s.data ≠ [] := by
    intro hdat
    exact h (by cases s; cases hdat; rfl)
  simp only [pySplitlines, ne_eq, List.map_eq_nil_iff]
  exact linesGo_ne_nil s.data [] (Or.inl hd)

theorem accJoin_len (lines : List String) : ∀ t,
    (accJoin t lines).length = t.length + sumLenS lines := by
  induction lines with
  | nil => intro t; simp [accJoin, sumLenS]
  | cons l rest ih =>
    intro t
    have h := ih (t ++ l ++ " ")
    simp only [accJoin, List.foldl_cons] at h ⊢
    rw [h]
    simp only [String.length_append, length_space, sumLenS]
    omega

theorem fold_no_flush (lines : List String) : ∀ (tweets : List String) (tweet : String),
    tweet.length + sumLenS lines ≤ 270 →
    List.foldl tweetStep (tweets, tweet) lines = (tweets, accJoin tweet lines) := by
  induction lines with
  | nil => intro tweets tweet _; simp [accJoin]
  | cons l rest ih =>
    intro tweets tweet h
    simp only [sumLenS] at h
    have h1 : ¬ (tweet_length_limit ≤ l.length) := by simp [tweet_length_limit]; omega
    have h2 : ¬ (tweet_length_limit ≤ tweet.length) := by simp [tweet_length_limit]; omega
    have h3 : ¬ (tweet_length_limit ≤ tweet.length + l.length) := by
      simp [tweet_length_limit]; omega
    have hstep : tweetStep (tweets, tweet) l = (tweets, tweet ++ l ++ " ") := by
      simp only [tweetStep, if_neg h1, if_neg h2, if_neg h3]
    rw [List.foldl_cons, hstep,
      ih tweets (tweet ++ l ++ " ")
        (by simp only [String.length_append, length_space]; omega)]
    simp [accJoin]

/-- C9: the empty summary yields the empty chunk sequence. -/
theorem c9_empty_summary : segment "" = [] := rfl

/-- C8 counterexample: the empty summary has length under the budget, yet
segment returns no chunk rather than exactly one. -/
theorem c8_cex : ("" : String).length < 270 ∧ (segment "").length ≠ 1 := by
  exact ⟨by decide, by decide⟩

/-- C8 amended: every nonempty summary whose total length is under the
270-character budget yields exactly one chunk, rendered with index 0 and
total 1. -/
theorem c8_one_chunk (s : String) (hne : s ≠ "") (hlen : s.length < 270) :
    ∃ c, segment s = [c] ∧ renderChunks (segment s) = [c ++ posSuffix 0 1] := by
  have hsum : sumLenS (pySplitlines s) ≤ 270 := by
    have := pySplitlines_sum s
    omega
  have hfold := fold_no_flush (pySplitlines s) [] "" (by simpa using hsum)
  have hlines := pySplitlines_ne_nil s hne
  have hacc : (accJoin "" (pySplitlines s)).length = sumLenS (pySplitlines s) := by
    simpa using accJoin_len (pySplitlines s) ""
  have hpos : 1 ≤ sumLenS (pySplitlines s) := by
    cases hl : pySplitlines s with
    | nil => exact absurd hl hlines
    | cons a t => simp [sumLenS, hl]; omega
  have haccne : accJoin "" (pySplitlines s) ≠ "" := by
    intro h
    rw [h] at hacc
    simp [String.length] at hacc
    omega
  refine ⟨accJoin "" (pySplitlines s), ?_, ?_⟩
  · simp only [segment, generate_tweet, hfold, ne_eq]
    simp [haccne]
  · have h1 : segment s = [accJoin "" (pySplitlines s)] := by
      simp only [segment, generate_tweet, hfold, ne_eq]
      simp [haccne]
    rw [h1]
    rfl

/-- Witness for c8_one_chunk at the summary from the spec example. -/
theorem c8_witness :
    ("Hello council." ≠ "" ∧ ("Hello council." : String).length < 270) ∧
    ∃ c, segment "Hello council." = [c] ∧
      renderChunks (segment "Hello council.") = [c ++ posSuffix 0 1] :=
  ⟨⟨by decide, by decide⟩, c8_one_chunk "Hello council." (by decide) (by decide)⟩

/-- C6 counterexample: with a 99-character line followed by a 169-character
line, the claimed flush condition (counting one separating space) holds at
the second line, so the claim predicts two chunks, but the code keeps
accumulating and produces a single 270-character chunk: the code flushes on
accumulator length plus line length without the plus one. -/
theorem c6_cex :
    generate_tweet [lineA, lineB] = [lineA ++ " " ++ lineB ++ " "] ∧
    generate_tweet_claimC6 [lineA, lineB] = [lineA ++ " ", lineB] ∧
    generate_tweet [lineA, lineB] ≠ generate_tweet_claimC6 [lineA, lineB] := by
  refine ⟨by decide, by decide, by decide⟩

/-- C6 amended: for an under-budget line the step flushes exactly when the
accumulator length plus the line length, with no separating space counted,
reaches the 270-character budget; otherwise the line and a trailing space
are appended to the accumulator, and after a flush the new accumulator is
the current line. -/
theorem c6_flush_condition (tweets : List String) (tweet line : String)
    (h : line.length < 270) :
    tweetStep (tweets, tweet) line =
      if 270 ≤ tweet.length + line.length then (tweets ++ [tweet], line)
      else (tweets, tweet ++ line ++ " ") := by
  have h1 : ¬ (tweet_length_limit ≤ line.length) := by
    simp [tweet_length_limit]; omega
  by_cases h2 : tweet_length_limit ≤ tweet.length
  · have h3 : 270 ≤ tweet.length + line.length := by
      simp [tweet_length_limit] at h2; omega
    simp only [tweetStep, if_neg h1, if_pos h2, if_pos h3]
  · by_cases h4 : tweet_length_limit ≤ tweet.length + line.length
    · have h5 : 270 ≤ tweet.length + line.length := h4
      simp only [tweetStep, if_neg h1, if_neg h2, if_pos h4, if_pos h5]
    · have h5 : ¬ (270 ≤ tweet.length + line.length) := h4
      simp only [tweetStep, if_neg h1, if_neg h2, if_neg h4, if_neg h5]

/-- Witness for c6_flush_condition at a concrete state and line. -/
theorem c6_witness :
    ("hi" : String).length < 270 ∧
    tweetStep ([], "") "hi" =
      (if 270 ≤ ("" : String).length + ("hi" : String).length then ([""], "hi")
       else ([], "" ++ "hi" ++ " ")) :=
  ⟨by decide, c6_flush_condition [] "" "hi" (by decide)⟩

theorem tweetStep_fst (st : List String × String) (l : String) :
    ∃ d, (tweetStep st l).1 = st.1 ++ d := by
  obtain ⟨tweets, tweet⟩ := st
  simp only [tweetStep]
  by_cases h1 : tweet_length_limit ≤ l.length
  · exact ⟨[tweet, (packWords tweet_length_limit (pyWords l) 0 "" "").1,
      (packWords tweet_length_limit (pyWords l) 0 "" "").2], by simp [h1]⟩
  · by_cases h2 : tweet_length_limit ≤ tweet.length
    · exact ⟨[tweet], by simp [h1, h2]⟩
    · by_cases h3 : tweet_length_limit ≤ tweet.length + l.length
      · exact ⟨[tweet], by simp [h1, h2, h3]⟩
      · exact ⟨[], by simp [h1, h2, h3]⟩

theorem fold_fst (lines : List String) : ∀ st : List String × String,
    ∃ d, (List.foldl tweetStep st lines).1 = st.1 ++ d := by
  induction lines with
  | nil => intro st; exact ⟨[], by simp⟩
  | cons l rest ih =>
    intro st
    obtain ⟨d0, hd0⟩ := tweetStep_fst st l
    obtain ⟨d1, hd1⟩ := ih (tweetStep st l)
    exact ⟨d0 ++ d1, by rw [List.foldl_cons, hd1, hd0, List.append_assoc]⟩

/-- C2 amended: the over-budget branch flushes the accumulator
unconditionally, even when it is empty, and appends both greedy pieces even
when empty, so chunks can be empty strings; in particular whenever the first
line is over budget the first chunk of the output is the empty string. -/
theorem c2_empty_first_chunk (line : String) (rest : List String)
    (h : 270 ≤ line.length) :
    (generate_tweet (line :: rest)).head? = some "" := by
  have h1 : tweet_length_limit ≤ line.length := h
  have hstep : tweetStep ([], "") line =
      (["", (packWords tweet_length_limit (pyWords line) 0 "" "").1,
        (packWords tweet_length_limit (pyWords line) 0 "" "").2], "") := by
    simp [tweetStep, if_pos h1]
  obtain ⟨d, hd⟩ := fold_fst rest (tweetStep ([], "") line)
  rw [hstep] at hd
  simp only [generate_tweet, List.foldl_cons]
  by_cases hlast : (List.foldl tweetStep (tweetStep ([], "") line) rest).2 ≠ ""
  · rw [if_pos hlast]
    rw [hstep, hd]
    simp
  · rw [if_neg hlast]
    rw [hstep, hd]
    simp

/-- Witness for c2_empty_first_chunk at a concrete over-budget line. -/
theorem c2_witness :
    270 ≤ lineC2.length ∧ (generate_tweet [lineC2]).head? = some "" :=
  ⟨by decide, c2_empty_first_chunk lineC2 [] (by decide)⟩

/-- C2 counterexample: a summary consisting of one 270-character word is
segmented into two empty chunks followed by the word, so the accumulator is
flushed while empty and empty chunks do occur in the output of segment. -/
theorem c2_cex : segment lineC2 = ["", "", lineC2 ++ " "] := by decide

theorem packWords_fst (ws : List String) : ∀ len n1 n2,
    n1.length ≤ len → n1.length < 270 →
    ((packWords 270 ws len n1 n2).1).length < 270 := by
  induction ws with
  | nil => intro len n1 n2 _ h2; simpa [packWords] using h2
  | cons w rest ih =>
    intro len n1 n2 h1 h2
    simp only [packWords]
    by_cases hc : len + (w.length + 1) < 270
    · rw [if_pos hc]
      refine ih (len + (w.length + 1)) (n1 ++ w ++ " ") _ ?_ ?_
      · simp only [String.length_append, length_space]; omega
      · simp only [String.length_append, length_space]; omega
    · rw [if_neg hc]
      exact ih (len + (w.length + 1)) n1 _ (by omega) h2

theorem packWords_snd (ws : List String) : ∀ len n1 n2,
    ((packWords 270 ws len n1 n2).2).length ≤ n2.length + sumLenS ws := by
  induction ws with
  | nil => intro len n1 n2; simp [packWords, sumLenS]
  | cons w rest ih =>
    intro len n1 n2
    simp only [packWords, sumLenS]
    by_cases hc : 270 ≤ len + (w.length + 1)
    · rw [if_pos hc]
      have := ih (len + (w.length + 1))
        (if len + (w.length + 1) < 270 then n1 ++ w ++ " " else n1) (n2 ++ w ++ " ")
      calc ((packWords 270 rest (len + (w.length + 1))
              (if len + (w.length + 1) < 270 then n1 ++ w ++ " " else n1)
              (n2 ++ w ++ " ")).2).length
          ≤ (n2 ++ w ++ " ").length + sumLenS rest := this
        _ ≤ n2.length + (w.length + 1 + sumLenS rest) := by
            simp only [String.length_append, length_space]; omega
    · rw [if_neg hc]
      have := ih (len + (w.length + 1))
        (if len + (w.length + 1) < 270 then n1 ++ w ++ " " else n1) n2
      omega

theorem le_maxLineLen (lines : List String) : ∀ l ∈ lines, l.length ≤ maxLineLen lines := by
  induction lines with
  | nil => intro l h; cases h
  | cons a rest ih =>
    intro l h
    rcases List.mem_cons.mp h with h | h
    · subst h; simp [maxLineLen]
    · have := ih l h
      simp only [maxLineLen]
      omega

theorem fold_bound (M : Nat) (lines : List String) :
    ∀ (tweets : List String) (tweet : String),
    (∀ l ∈ lines, l.length ≤ M) →
    (∀ t ∈ tweets, t.length ≤ max 270 (M + 1)) →
    tweet.length ≤ 270 →
    (∀ t ∈ (List.foldl tweetStep (tweets, tweet) lines).1, t.length ≤ max 270 (M + 1)) ∧
      (List.foldl tweetStep (tweets, tweet) lines).2.length ≤ 270 := by
  induction lines with
  | nil => intro tweets tweet _ ht hw; exact ⟨ht, hw⟩
  | cons l rest ih =>
    intro tweets tweet hM ht hw
    have hlM : l.length ≤ M := hM l (List.mem_cons_self l rest)
    have hrest : ∀ x ∈ rest, x.length ≤ M := fun x hx => hM x (List.mem_cons_of_mem l hx)
    rw [List.foldl_cons]
    by_cases h1 : tweet_length_limit ≤ l.length
    · have h1a : (270 : Nat) ≤ l.length := h1
      have hstep : tweetStep (tweets, tweet) l =
          (tweets ++ [tweet, (packWords 270 (pyWords l) 0 "" "").1,
            (packWords 270 (pyWords l) 0 "" "").2], "") := by
        simp only [tweetStep, tweet_length_limit]
        rw [if_pos h1a]
      rw [hstep]
      refine ih _ "" hrest ?_ (by simp [String.length])
      intro t htm
      have hn1 : ((packWords 270 (pyWords l) 0 "" "").1).length < 270 :=
        packWords_fst (pyWords l) 0 "" "" (by simp [String.length]) (by simp [String.length])
      have hn2 : ((packWords 270 (pyWords l) 0 "" "").2).length ≤ l.length + 1 := by
        have h3 := packWords_snd (pyWords l) 0 "" ""
        have h4 := pyWords_sum l
        have h0 : ("" : String).length = 0 := rfl
        rw [h0] at h3
        omega
      rcases List.mem_append.mp htm with htm | htm
      · exact ht t htm
      · simp only [List.mem_cons, List.not_mem_nil, or_false] at htm
        rcases htm with htm | htm | htm
        · subst htm; omega
        · subst htm; omega
        · subst htm; omega
    · by_cases h2 : tweet_length_limit ≤ tweet.length
      · have hstep : tweetStep (tweets, tweet) l = (tweets ++ [tweet], l) := by
          simp [tweetStep, h1, h2]
        rw [hstep]
        refine ih _ l hrest ?_ ?_
        · intro t htm
          rcases List.mem_append.mp htm with htm | htm
          · exact ht t htm
          · have heq : t = tweet := by simpa using htm
            subst heq; omega
        · simp [tweet_length_limit] at h1; omega
      · by_cases h3 : tweet_length_limit ≤ tweet.length + l.length
        · have hstep : tweetStep (tweets, tweet) l = (tweets ++ [tweet], l) := by
            simp [tweetStep, h1, h2, h3]
          rw [hstep]
          refine ih _ l hrest ?_ ?_
          · intro t htm
            rcases List.mem_append.mp htm with htm | htm
            · exact ht t htm
            · have heq : t = tweet := by simpa using htm
              subst heq; omega
          · simp [tweet_length_limit] at h1; omega
        · have hstep : tweetStep (tweets, tweet) l = (tweets, tweet ++ l ++ " ") := by
            simp [tweetStep, h1, h2, h3]
          rw [hstep]
          refine ih _ _ hrest ht ?_
          simp only [String.length_append, length_space]
          simp [tweet_length_limit] at h3
          omega

/-- Every chunk of generate_tweet has text length at most the larger of the
budget and the longest line plus one. -/
theorem chunk_bound (lines : List String) :
    ∀ t ∈ generate_tweet lines, t.length ≤ max 270 (maxLineLen lines + 1) := by
  intro t ht
  have hb := fold_bound (maxLineLen lines) lines [] ""
    (le_maxLineLen lines) (by intro x hx; cases hx) (by simp [String.length])
  simp only [generate_tweet] at ht
  by_cases hlast : (List.foldl tweetStep ([], "") lines).2 ≠ ""
  · rw [if_pos hlast] at ht
    rcases List.mem_append.mp ht with h | h
    · exact hb.1 t h
    · have heq : t = (List.foldl tweetStep ([], "") lines).2 := by simpa using h
      subst heq
      have := hb.2
      omega
  · rw [if_neg hlast] at ht
    exact hb.1 t ht

/-- C5 amended: every chunk of segment has text length at most
max(270, longest line length + 1), so its rendered form exceeds that bound
only by the length of the positional suffix. The original bound of the
budget plus one over-budget word does not hold, because the second greedy
piece of an over-budget line is bounded only by the line length. -/
theorem c5_chunk_bound (s : String) (t : String) (ht : t ∈ segment s) (i total : Nat) :
    (t ++ posSuffix i total).length ≤
      max 270 (maxLineLen (pySplitlines s) + 1) + (posSuffix i total).length := by
  rw [String.length_append]
  have := chunk_bound (pySplitlines s) t ht
  omega

/-- Witness for c5_chunk_bound at a concrete summary and chunk. -/
theorem c5_witness :
    ("Hello " ∈ segment "Hello") ∧
    ("Hello " ++ posSuffix 0 1).length ≤
      max 270 (maxLineLen (pySplitlines "Hello") + 1) + (posSuffix 0 1).length :=
  ⟨by decide, c5_chunk_bound "Hello" "Hello " (by decide) 0 1⟩

/-- C5 counterexample: a summary whose single line is 629 characters of
89-character words has a third rendered chunk of 456 characters, exceeding
the 270-character budget by far more than the length of any word of the
summary, none of which is over budget. -/
theorem c5_cex :
    270 + maxWordLenS lineC5 < ((renderChunks (segment lineC5)).getD 2 "").length := by
  decide

/-- C4: when the committee cell is absent, label extraction does not return
the sentinel "Unknown Committee": committee_td.find(br) is evaluated before
the guard, so the call raises AttributeError and the sentinel branch is
unreachable. -/
theorem c4_absent_cell_raises :
    find_committee_name_from_link anchorNoCell =
      Except.error "AttributeError: NoneType has no attribute find" ∧
    find_committee_name_from_link anchorNoCell ≠ Except.ok "Unknown Committee" :=
  ⟨rfl, fun h => Except.noConfusion h⟩

theorem scrapeGo_sound (inCat : String → Bool) :
    ∀ (l : List Anchor) (links : List (String × String)),
      scrapeGo inCat l = Except.ok links →
      ∀ p ∈ links, ∃ a ∈ l, p.2 = urljoin a.href ∧ agendaCond a.href = true := by
  intro l
  induction l with
  | nil =>
    intro links h p hp
    simp only [scrapeGo] at h
    cases h
    cases hp
  | cons a rest ih =>
    intro links h p hp
    simp only [scrapeGo] at h
    by_cases hc : agendaCond a.href
    · rw [if_pos hc] at h
      by_cases hcat : inCat (urljoin a.href)
      · rw [if_pos hcat] at h
        obtain ⟨b, hb, hb2⟩ := ih links h p hp
        exact ⟨b, List.mem_cons_of_mem a hb, hb2⟩
      · rw [if_neg hcat] at h
        cases hname : find_committee_name_from_link a with
        | error e => rw [hname] at h; cases h
        | ok name =>
          rw [hname] at h
          cases htail : scrapeGo inCat rest with
          | error e => rw [htail] at h; cases h
          | ok tail =>
            rw [htail] at h
            cases h
            rcases List.mem_cons.mp hp with hp | hp
            · subst hp
              exact ⟨a, List.mem_cons_self a rest, rfl, hc⟩
            · obtain ⟨b, hb, hb2⟩ := ih tail htail p hp
              exact ⟨b, List.mem_cons_of_mem a hb, hb2⟩
    · rw [if_neg hc] at h
      obtain ⟨b, hb, hb2⟩ := ih links h p hp
      exact ⟨b, List.mem_cons_of_mem a hb, hb2⟩

/-- C7: every pair returned by scrape_links originates from an anchor of the
page whose href ends with .PDF, contains AGN and does not contain SUP; a
link whose path contains the supplementary marker is therefore never
yielded, even when it also carries the agenda marker and the extension. -/
theorem c7_no_sup (page : List Anchor) (inCat : String → Bool)
    (links : List (String × String)) (h : scrape_links page inCat = Except.ok links) :
    ∀ p ∈ links, ∃ a ∈ page, p.2 = urljoin a.href ∧
      pyEndsWith a.href ".PDF" = true ∧ hasSub a.href "AGN" = true ∧
      hasSub a.href "SUP" = false := by
  intro p hp
  simp only [scrape_links] at h
  obtain ⟨a, ha, heq, hcond⟩ :=
    scrapeGo_sound inCat ((page.filter (fun x => pyEndsWith x.href ".PDF")).take 1) links h p hp
  have hmem : a ∈ page :=
    List.mem_of_mem_filter (List.take_subset 1 _ ha)
  simp only [agendaCond, Bool.and_eq_true, Bool.not_eq_true'] at hcond
  exact ⟨a, hmem, heq, hcond.1.1, hcond.1.2, hcond.2⟩

/-- Witness for c7_no_sup at a concrete one-anchor page. -/
theorem c7_witness :
    (scrape_links [anchorAGN] noCat =
      Except.ok [("Hutt City Council", urljoin "Agendas/AGN_20260315.PDF")]) ∧
    ∃ a ∈ [anchorAGN],
      ("Hutt City Council", urljoin "Agendas/AGN_20260315.PDF").2 = urljoin a.href ∧
      pyEndsWith a.href ".PDF" = true ∧ hasSub a.href "AGN" = true ∧
      hasSub a.href "SUP" = false :=
  ⟨by rfl, c7_no_sup [anchorAGN] noCat _ (by rfl) _ (List.mem_singleton.mpr rfl)⟩

/-- C10: one invocation of scrape_links yields at most one labelled link,
because find_all is called with limit equal to one and so keeps at most the
first href matching the PDF pattern. -/
theorem scrapeGo_len (inCat : String → Bool) :
    ∀ (l : List Anchor) (links : List (String × String)),
      scrapeGo inCat l = Except.ok links → links.length ≤ l.length := by
  intro l
  induction l with
  | nil =>
    intro links h
    simp only [scrapeGo] at h
    cases h
    simp
  | cons a rest ih =>
    intro links h
    simp only [scrapeGo] at h
    by_cases hc : agendaCond a.href
    · rw [if_pos hc] at h
      by_cases hcat : inCat (urljoin a.href)
      · rw [if_pos hcat] at h
        have := ih links h
        simp only [List.length_cons]
        omega
      · rw [if_neg hcat] at h
        cases hname : find_committee_name_from_link a with
        | error e => rw [hname] at h; cases h
        | ok name =>
          rw [hname] at h
          cases htail : scrapeGo inCat rest with
          | error e => rw [htail] at h; cases h
          | ok tail =>
            rw [htail] at h
            cases h
            have := ih tail htail
            simp only [List.length_cons]
            omega
    · rw [if_neg hc] at h
      have := ih links h
      simp only [List.length_cons]
      omega

theorem c10_at_most_one (page : List Anchor) (inCat : String → Bool)
    (links : List (String × String)) (h : scrape_links page inCat = Except.ok links) :
    links.length ≤ 1 := by
  simp only [scrape_links] at h
  have h1 := scrapeGo_len inCat _ links h
  have h2 := List.length_take_le 1 (page.filter (fun a => pyEndsWith a.href ".PDF"))
  omega

/-- Witness for c10_at_most_one at a concrete one-anchor page. -/
theorem c10_witness :
    ([("Hutt City Council", urljoin "Agendas/AGN_20260315.PDF")] :
      List (String × String)).length ≤ 1 :=
  c10_at_most_one [anchorAGN] noCat _ (by rfl)

theorem docRecord_url (summarize : String → String → Option String)
    (oracle : List String → Option String) (d : String × String) (r : Record)
    (h : docRecord summarize oracle d = some r) : r.url = d.2 := by
  simp only [docRecord] at h
  split at h
  · split at h
    · cases h; rfl
    · cases h
  · cases h

theorem docRecord_of_fail (summarize : String → String → Option String)
    (oracle : List String → Option String) (d : String × String)
    (hfail : post_to_twitter oracle (summarize d.1 d.2) = none) :
    docRecord summarize oracle d = none := by
  simp only [docRecord]
  rw [hfail]

/-- C3: a document whose summarization fails or whose publish step yields no
thread root URL contributes no catalog row: after the run, no row carries
that source url, provided no other discovered document shares the url and
the url was not already catalogued. -/
theorem c3_failed_not_recorded
    (summarize : String → String → Option String) (oracle : List String → Option String)
    (links : List (String × String)) (cat : List Record) (d : String × String)
    (hfail : post_to_twitter oracle (summarize d.1 d.2) = none)
    (huniq : ∀ d2 ∈ links, d2.2 = d.2 → d2 = d)
    (hcat : ∀ r ∈ cat, r.url ≠ d.2) :
    ∀ r ∈ mainLoop summarize oracle links cat, r.url ≠ d.2 := by
  intro r hr
  have hbatch : ∀ r2 ∈ links.filterMap (docRecord summarize oracle), r2.url ≠ d.2 := by
    intro r2 hr2 hurl
    obtain ⟨d2, hd2, hsome⟩ := List.mem_filterMap.mp hr2
    have : d2.2 = d.2 := (docRecord_url summarize oracle d2 r2 hsome) ▸ hurl
    have hd2d : d2 = d := huniq d2 hd2 this
    rw [hd2d, docRecord_of_fail summarize oracle d hfail] at hsome
    cases hsome
  simp only [mainLoop] at hr
  by_cases hc : conflictFree (cat.map Record.url)
      (links.filterMap (docRecord summarize oracle)) = true
  · rw [if_pos hc] at hr
    rcases List.mem_append.mp hr with h | h
    · exact hcat r h
    · exact hbatch r h
  · rw [if_neg hc] at hr
    exact hcat r hr

/-- Witness for c3_failed_not_recorded: document A fails to summarize while
document B succeeds; the committed row of the run is the record of B, whose
url differs from the failed url u1. -/
theorem c3_witness :
    (⟨"B", "u2", "https://x.com/hcc/status/9", "Line one"⟩ : Record).url ≠ "u1" :=
  c3_failed_not_recorded sMix oracleOK [("A", "u1"), ("B", "u2")] [] ("A", "u1")
    (by rfl) (by decide) (by decide) _ (by decide)

/-- C1 counterexample: in a run discovering documents A (url u1, already
catalogued by another run) and B (url u2), both publish successfully, but
the primary-key conflict on u1 aborts the single batched executemany before
commit: the record of B, although its document published successfully in the
same run, is not committed, so the conflict is not contained per document. -/
theorem c1_cex :
    (docRecord sAll oracleOK ("B", "u2")).isSome = true ∧
    mainLoop sAll oracleOK [("A", "u1"), ("B", "u2")] catC1 = catC1 ∧
    ((mainLoop sAll oracleOK [("A", "u1"), ("B", "u2")] catC1).map Record.url).contains
      "u2" = false := by
  refine ⟨by decide, by decide, by decide⟩

/-- C1 amended: a document whose summarization or publish fails is contained
per document: the run behaves exactly as if that document had not been
discovered, and when in addition the batched end-of-run insert is
conflict-free, every successfully published record of the run is committed.
A primary-key conflict inside the batch, however, aborts the whole insert
and commits nothing. -/
theorem c1_containment
    (summarize : String → String → Option String) (oracle : List String → Option String)
    (cat : List Record) (pre post : List (String × String)) (d : String × String)
    (hfail : docRecord summarize oracle d = none) :
    mainLoop summarize oracle (pre ++ d :: post) cat =
      mainLoop summarize oracle (pre ++ post) cat ∧
    (conflictFree (cat.map Record.url)
        ((pre ++ post).filterMap (docRecord summarize oracle)) = true →
      mainLoop summarize oracle (pre ++ post) cat =
        cat ++ (pre ++ post).filterMap (docRecord summarize oracle)) := by
  constructor
  · simp only [mainLoop, List.filterMap_append, List.filterMap_cons_none hfail]
  · intro hc
    simp only [mainLoop, if_pos hc]

/-- Witness for c1_containment: a failed document among the discovered links
leaves the outcome of the run unchanged, and the conflict-free remainder is
committed. -/
theorem c1_witness :
    (docRecord sMix oracleOK ("A", "u1") = none) ∧
    (mainLoop sMix oracleOK ([("B", "u2")] ++ ("A", "u1") :: []) [] =
      mainLoop sMix oracleOK ([("B", "u2")] ++ []) [] ∧
    (conflictFree (([] : List Record).map Record.url)
        (([("B", "u2")] ++ []).filterMap (docRecord sMix oracleOK)) = true →
      mainLoop sMix oracleOK ([("B", "u2")] ++ []) [] =
        [] ++ ([("B", "u2")] ++ []).filterMap (docRecord sMix oracleOK))) :=
  ⟨by decide, c1_containment sMix oracleOK [] [("B", "u2")] [] ("A", "u1") (by decide)⟩

end HCC
